import Mathlib

/-! # Investio: trade settlement and quote lookup

A shallow embedding of `src/app.js` and `src/stock.js`.

Conventions of the embedding.

* A finite JavaScript Number is an exact rational (`ℚ`).  Rounding, overflow
  and negative zero are outside the model.
* The request fields `numShares` and `sellNumShares` reach the handlers as
  strings, and the handlers read one field in two ways: the operators `*`,
  `-` and `<` coerce it (`toNumber`), while `parseInt(field, 10)` reads its
  leading decimal digits (`parseInt10`).  Both readings are computed from the
  string and can be `NaN`; the coerced field can be infinite (`Num`).
* `buyPrice` is the one field that the handlers compute by a division; it is
  a `Num`, infinite after a division of a number other than `0` by `0`.
* The quote returned by `getStockPrice` is `null`, `NaN` or a finite number
  (`JSNum`): `parseFloat` does not read the literal `Infinity` here.
* `user.save()` is recorded in `Outcome.saved`: `none` means that nothing
  was saved, so the stored record is the one the handler started from.  A
  `NaN` assigned to a Number path makes `user.save()` reject; the handler
  then sends no response (`Response.unanswered`).
-/

namespace Investio

/-! ## Numbers -/

/-- A Number that need not be finite: `NaN`, an infinity with its sign, or a
finite number. -/
inductive Num where
  | nan
  | inf (negative : Bool)
  | fin (q : ℚ)
  deriving DecidableEq

/-- Unary minus. -/
def Num.neg : Num → Num
  | Num.nan => Num.nan
  | Num.inf s => Num.inf (!s)
  | Num.fin q => Num.fin (-q)

/-- The operator `*`. -/
def Num.mul : Num → Num → Num
  | Num.nan, _ => Num.nan
  | _, Num.nan => Num.nan
  | Num.inf s, Num.inf t => Num.inf (s != t)
  | Num.inf s, Num.fin q => if q = 0 then Num.nan else Num.inf (s != decide (q < 0))
  | Num.fin q, Num.inf s => if q = 0 then Num.nan else Num.inf (s != decide (q < 0))
  | Num.fin a, Num.fin b => Num.fin (a * b)

/-- The operator `+`. -/
def Num.add : Num → Num → Num
  | Num.nan, _ => Num.nan
  | _, Num.nan => Num.nan
  | Num.inf s, Num.inf t => if s = t then Num.inf s else Num.nan
  | Num.inf s, Num.fin _ => Num.inf s
  | Num.fin _, Num.inf s => Num.inf s
  | Num.fin a, Num.fin b => Num.fin (a + b)

/-- The operator `/`; a zero divisor counts as positive. -/
def Num.div : Num → Num → Num
  | Num.nan, _ => Num.nan
  | _, Num.nan => Num.nan
  | Num.inf _, Num.inf _ => Num.nan
  | Num.inf s, Num.fin q => Num.inf (s != decide (q < 0))
  | Num.fin _, Num.inf _ => Num.fin 0
  | Num.fin a, Num.fin b =>
    if b = 0 then (if a = 0 then Num.nan else Num.inf (decide (a < 0)))
    else Num.fin (a / b)

/-- The operator `<`: false as soon as an operand is `NaN`. -/
def Num.lt : Num → Num → Bool
  | Num.nan, _ => false
  | _, Num.nan => false
  | Num.inf s, Num.inf t => s && !t
  | Num.inf s, Num.fin _ => s
  | Num.fin _, Num.inf t => !t
  | Num.fin a, Num.fin b => decide (a < b)

/-! ## Data model (`StockSchema`, `UserSchema`, `class Stock`) -/

/-- One holding: `new Stock(name, numShares, buyPrice, curPrice)`. -/
structure Stock where
  name : String
  numShares : ℚ
  buyPrice : Num
  curPrice : ℚ
  deriving DecidableEq

/-- A user record of the `User` collection. -/
structure User where
  username : String
  password : String
  cashBalance : ℚ
  totalBalance : ℚ
  stocks : List Stock
  deriving DecidableEq

/-- What a handler answers with; `unanswered` when `user.save()` rejects
and the handler returns without a response of its own. -/
inductive Response where
  | redirect (path : String)
  | send (message : String)
  | render (view : String)
  | unanswered
  deriving DecidableEq

/-- The effect of one request: the response and the record that
`user.save()` stored, if the handler got that far and the save went through. -/
structure Outcome where
  response : Response
  saved : Option User
  deriving DecidableEq

/-- The stored record after a request that started from `u`. -/
def Outcome.store (o : Outcome) (u : User) : User :=
  o.saved.getD u

/-! ## Reading numbers from strings -/

/-- The value `parseFloat` hands back: `NaN` or a finite number. -/
inductive JSNum where
  | nan
  | fin (q : ℚ)
  deriving DecidableEq

/-- Code points that `parseFloat` skips at the start of its argument. -/
def isStrWhiteSpace (c : Char) : Bool :=
  [9, 10, 11, 12, 13, 32, 160, 5760, 8192, 8193, 8194, 8195, 8196, 8197, 8198,
    8199, 8200, 8201, 8202, 8232, 8233, 8239, 8287, 12288, 65279].contains c.toNat

/-- Value of a decimal digit character. -/
def digitVal (c : Char) : Nat :=
  c.toNat - 48

/-- Value of a run of decimal digits, most significant first. -/
def digitsToNat (ds : List Char) : Nat :=
  ds.foldl (fun a c => 10 * a + digitVal c) 0

/-- The digits of an exponent, if at least one digit is present. -/
def exponentDigits (cs : List Char) : Option Nat :=
  let ds := cs.takeWhile Char.isDigit
  if ds.isEmpty then none else some (digitsToNat ds)

/-- The exponent part `e±ddd` following a mantissa; `0` when there is none. -/
def exponentPart : List Char → ℤ
  | [] => 0
  | c :: r =>
    if c = 'e' ∨ c = 'E' then
      match r with
      | '-' :: ds => match exponentDigits ds with
        | some n => -(n : ℤ)
        | none => 0
      | '+' :: ds => match exponentDigits ds with
        | some n => (n : ℤ)
        | none => 0
      | ds => match exponentDigits ds with
        | some n => (n : ℤ)
        | none => 0
    else 0

/-- Multiplication by a power of ten. -/
def scale10 (m : ℚ) (e : ℤ) : ℚ :=
  if 0 ≤ e then m * 10 ^ e.toNat else m / 10 ^ (-e).toNat

/-- Unsigned decimal literal at the head of `cs`: digits, an optional
fraction and an optional exponent.  `NaN` when no digit is found. -/
def parseUnsigned (cs : List Char) : JSNum :=
  let ip := cs.takeWhile Char.isDigit
  let r1 := cs.dropWhile Char.isDigit
  match r1 with
  | '.' :: r =>
    let fp := r.takeWhile Char.isDigit
    let r2 := r.dropWhile Char.isDigit
    if ip.isEmpty ∧ fp.isEmpty then JSNum.nan
    else JSNum.fin (scale10 ((digitsToNat ip : ℚ) + (digitsToNat fp : ℚ) / 10 ^ fp.length)
      (exponentPart r2))
  | _ =>
    if ip.isEmpty then JSNum.nan
    else JSNum.fin (scale10 (digitsToNat ip : ℚ) (exponentPart r1))

/-- Negation of a parsed number. -/
def JSNum.neg : JSNum → JSNum
  | JSNum.nan => JSNum.nan
  | JSNum.fin q => JSNum.fin (-q)

/-- The global `parseFloat` on a string: skip leading white space, read an
optional sign and the longest decimal literal that follows.  The literal
`Infinity` is not read: numbers that are not finite are outside the model. -/
def parseFloat (s : String) : JSNum :=
  match s.toList.dropWhile isStrWhiteSpace with
  | '-' :: r => (parseUnsigned r).neg
  | '+' :: r => parseUnsigned r
  | cs => parseUnsigned cs

/-- The call `parseInt(field, 10)`: skip leading white space, read an
optional sign and the leading decimal digits; `NaN` when there is no digit. -/
def parseInt10 (field : String) : Num :=
  match field.toList.dropWhile isStrWhiteSpace with
  | '-' :: r =>
    if (r.takeWhile Char.isDigit).isEmpty then Num.nan
    else Num.fin (-(digitsToNat (r.takeWhile Char.isDigit) : ℚ))
  | '+' :: r =>
    if (r.takeWhile Char.isDigit).isEmpty then Num.nan
    else Num.fin (digitsToNat (r.takeWhile Char.isDigit) : ℚ)
  | cs =>
    if (cs.takeWhile Char.isDigit).isEmpty then Num.nan
    else Num.fin (digitsToNat (cs.takeWhile Char.isDigit) : ℚ)

/-- Value of a digit in a radix up to 16. -/
def hexDigitVal (c : Char) : Option Nat :=
  if c.isDigit then some (c.toNat - 48)
  else if 97 ≤ c.toNat ∧ c.toNat ≤ 102 then some (c.toNat - 87)
  else if 65 ≤ c.toNat ∧ c.toNat ≤ 70 then some (c.toNat - 55)
  else none

/-- Value of a run of digits of the given radix; `none` when a character is
not such a digit. -/
def radixDigits (radix : Nat) (cs : List Char) : Option Nat :=
  cs.foldl
    (fun acc c =>
      match acc, hexDigitVal c with
      | some a, some d => if d < radix then some (radix * a + d) else none
      | _, _ => none)
    (some 0)

/-- The digits after a radix mark: a Number when there is at least one digit
and all are digits of the radix, `NaN` otherwise. -/
def radixLiteral (radix : Nat) (cs : List Char) : Num :=
  if cs.isEmpty then Num.nan
  else
    match radixDigits radix cs with
    | some n => Num.fin (n : ℚ)
    | none => Num.nan

/-- A literal `0x`, `0o` or `0b`, in either case; `none` when the string
does not start with such a mark. -/
def nonDecimalLiteral : List Char → Option Num
  | '0' :: c :: rest =>
    if c = 'x' ∨ c = 'X' then some (radixLiteral 16 rest)
    else if c = 'o' ∨ c = 'O' then some (radixLiteral 8 rest)
    else if c = 'b' ∨ c = 'B' then some (radixLiteral 2 rest)
    else none
  | _ => none

/-- An exponent part that makes up all of `cs`; `0` for the empty string,
`none` when `cs` is anything else. -/
def exponentFull : List Char → Option ℤ
  | [] => some 0
  | c :: r =>
    if c = 'e' ∨ c = 'E' then
      match r with
      | '-' :: ds =>
        if ds.isEmpty ∨ ¬ ds.all Char.isDigit then none else some (-(digitsToNat ds : ℤ))
      | '+' :: ds =>
        if ds.isEmpty ∨ ¬ ds.all Char.isDigit then none else some (digitsToNat ds : ℤ)
      | ds =>
        if ds.isEmpty ∨ ¬ ds.all Char.isDigit then none else some (digitsToNat ds : ℤ)
    else none

/-- An unsigned decimal literal that makes up all of `cs`: `Infinity`, or
digits with an optional fraction and an optional exponent. -/
def strDecimalLiteral (cs : List Char) : Num :=
  if cs = ['I', 'n', 'f', 'i', 'n', 'i', 't', 'y'] then Num.inf false
  else
    match cs.dropWhile Char.isDigit with
    | '.' :: r =>
      if (cs.takeWhile Char.isDigit).isEmpty ∧ (r.takeWhile Char.isDigit).isEmpty then Num.nan
      else
        match exponentFull (r.dropWhile Char.isDigit) with
        | some e =>
          Num.fin (scale10
            ((digitsToNat (cs.takeWhile Char.isDigit) : ℚ)
              + (digitsToNat (r.takeWhile Char.isDigit) : ℚ)
                / 10 ^ (r.takeWhile Char.isDigit).length) e)
        | none => Num.nan
    | r1 =>
      if (cs.takeWhile Char.isDigit).isEmpty then Num.nan
      else
        match exponentFull r1 with
        | some e => Num.fin (scale10 (digitsToNat (cs.takeWhile Char.isDigit) : ℚ) e)
        | none => Num.nan

/-- The string without the white space at its two ends. -/
def trimWhiteSpace (cs : List Char) : List Char :=
  ((cs.dropWhile isStrWhiteSpace).reverse.dropWhile isStrWhiteSpace).reverse

/-- The coercion of a string by the operators `*`, `-` and `<`: the empty
string is `0`, a string that is not a numeric literal as a whole is `NaN`. -/
def toNumber (field : String) : Num :=
  if (trimWhiteSpace field.toList).isEmpty then Num.fin 0
  else
    match nonDecimalLiteral (trimWhiteSpace field.toList) with
    | some v => v
    | none =>
      match trimWhiteSpace field.toList with
      | '-' :: r => (strDecimalLiteral r).neg
      | '+' :: r => strDecimalLiteral r
      | cs => strDecimalLiteral cs

/-! ## Quote lookup (`getStockPrice`) -/

/-- The object under the key `'Global Quote'`; `price` is the string under
`'05. price'` (the provider quotes prices as strings), `none` when the key is
missing. -/
structure GlobalQuote where
  price : Option String
  deriving DecidableEq

/-- The body of the provider's answer (`response.data`); `globalQuote` is
`none` when the key `'Global Quote'` is missing. -/
structure Payload where
  globalQuote : Option GlobalQuote
  deriving DecidableEq

/-- What the call `axios.get(...)` can meet. -/
inductive ProviderOutcome where
  | networkError
  | http (status : Nat) (data : Payload)
  deriving DecidableEq

/-- The exceptions raised inside the `try` block of `getStockPrice`. -/
inductive QuoteError where
  | requestFailed
  | typeError
  | priceNotFound
  deriving DecidableEq

/-- The call `await axios.get(...)`: it resolves for a status in `200..299` and
rejects otherwise. -/
def axiosGet : ProviderOutcome → Except QuoteError Payload
  | ProviderOutcome.networkError => Except.error QuoteError.requestFailed
  | ProviderOutcome.http status data =>
    if 200 ≤ status ∧ status < 300 then Except.ok data
    else Except.error QuoteError.requestFailed

/-- The `try` block of `getStockPrice` (lines 99-113).  `provider` is the
answer of the market-data service for each symbol. -/
def getStockPriceTry (provider : String → ProviderOutcome) (stockTicker : String) :
    Except QuoteError JSNum :=
  match axiosGet (provider stockTicker) with
  | Except.error e => Except.error e
  | Except.ok data =>
    match data.globalQuote with
    | none => Except.error QuoteError.typeError
    | some quote =>
      match quote.price with
      | none => Except.error QuoteError.priceNotFound
      | some price =>
        if price = "" then Except.error QuoteError.priceNotFound
        else Except.ok (parseFloat price)

/-- The function `getStockPrice` (lines 97-118): the `catch` turns every
exception into `null`. -/
def getStockPrice (provider : String → ProviderOutcome) (stockTicker : String) :
    Option JSNum :=
  match getStockPriceTry provider stockTicker with
  | Except.ok v => some v
  | Except.error _ => none

/-- The number behind a truthy quote: the tests `!stockPrice` and
`if (currentPrice)` treat `null`, `NaN` and `0` as absent. -/
def truthyNumber : Option JSNum → Option ℚ
  | none => none
  | some JSNum.nan => none
  | some (JSNum.fin q) => if q = 0 then none else some q

/-! ## The ledger -/

/-- The fold `stocks.reduce((total, stock) => total + (stock.curPrice *
stock.numShares), 0)`. -/
def holdingsValue (stocks : List Stock) : ℚ :=
  stocks.foldl (fun total stock => total + stock.curPrice * stock.numShares) 0

/-- The lookup `user.stocks.find(stock => stock.name === stockTicker)`. -/
def findStock (stocks : List Stock) (stockTicker : String) : Option Stock :=
  stocks.find? (fun stock => decide (stock.name = stockTicker))

/-- Assignment to the fields of the object returned by `find`: the first
element named `stockTicker` is replaced, the others are left alone. -/
def updateStock (stockTicker : String) (f : Stock → Stock) : List Stock → List Stock
  | [] => []
  | stock :: rest =>
    if stock.name = stockTicker then f stock :: rest
    else stock :: updateStock stockTicker f rest

/-- Lines 206-208: the three assignments to `existingStock` in `/buy`, in
source order (`buyPrice` reads the share count already incremented).
`numShares` is the coerced field and `parsed` the result of `parseInt`. -/
def buyExisting (numShares parsed stockPrice : ℚ) (existingStock : Stock) : Stock :=
  { existingStock with
    numShares := existingStock.numShares + parsed
    buyPrice :=
      Num.div
        (Num.add
          (Num.mul existingStock.buyPrice
            (Num.fin (existingStock.numShares + parsed - numShares)))
          (Num.fin (stockPrice * numShares)))
        (Num.fin (existingStock.numShares + parsed))
    curPrice := stockPrice }

/-- Lines 203-211 of `/buy`: the holdings after the purchase, an update of
the holding found or a new holding pushed at the end; `none` when the average
cost assigned at line 207 is `NaN`. -/
def buyStocks (stocks : List Stock) (stockTicker : String)
    (numShares parsed stockPrice : ℚ) : Option (List Stock) :=
  match findStock stocks stockTicker with
  | some existingStock =>
    match (buyExisting numShares parsed stockPrice existingStock).buyPrice with
    | Num.nan => none
    | _ => some (updateStock stockTicker (buyExisting numShares parsed stockPrice) stocks)
  | none =>
    some (stocks ++ [Stock.mk stockTicker parsed (Num.fin stockPrice) stockPrice])

/-- The handler of `POST /buy` from line 191 on, for a user that was found.
When the coerced field is not finite or `parseInt` returns `NaN`, a `NaN`
is assigned to `cashBalance` or to `numShares` (`parseInt` returns `NaN` on
the literal `Infinity`), and `user.save()` rejects. -/
def buy (user : User) (stockTicker : String) (numShares : String)
    (stockPrice : Option JSNum) : Outcome :=
  match truthyNumber stockPrice with
  | none => ⟨Response.send "Error fetching stock price.", none⟩
  | some price =>
    if Num.lt (Num.fin user.cashBalance) (Num.mul (Num.fin price) (toNumber numShares)) then
      ⟨Response.send "Insufficient funds.", none⟩
    else
      match toNumber numShares, parseInt10 numShares with
      | Num.fin n, Num.fin parsed =>
        match buyStocks user.stocks stockTicker n parsed price with
        | none => ⟨Response.unanswered, none⟩
        | some stocks =>
          ⟨Response.redirect "/main",
            some { user with
              stocks := stocks
              cashBalance := user.cashBalance - price * n
              totalBalance := user.cashBalance - price * n + holdingsValue stocks }⟩
      | _, _ => ⟨Response.unanswered, none⟩

/-- Lines 247 and 252: the assignments to `existingStock` in `/sell` when
shares remain; `parsed` is the result of `parseInt`. -/
def sellExisting (parsed stockPrice : ℚ) (existingStock : Stock) : Stock :=
  { existingStock with
    numShares := existingStock.numShares - parsed
    curPrice := stockPrice }

/-- Lines 247-253 of `/sell`: the holdings after the sale of shares of
`existingStock`, the holding found for the ticker. -/
def sellStocks (stocks : List Stock) (existingStock : Stock) (stockTicker : String)
    (parsed stockPrice : ℚ) : List Stock :=
  if existingStock.numShares - parsed = 0 then
    stocks.filter (fun stock => decide (stock.name ≠ stockTicker))
  else updateStock stockTicker (sellExisting parsed stockPrice) stocks

/-- The handler of `POST /sell` from line 234 on, for a user that was found.
When the coerced field is not finite or `parseInt` returns `NaN`, a `NaN`
is assigned to `cashBalance` or to `numShares`, and `user.save()` rejects. -/
def sell (user : User) (stockTicker : String) (sellNumShares : String)
    (stockPrice : Option JSNum) : Outcome :=
  match truthyNumber stockPrice with
  | none => ⟨Response.send "Error fetching stock price.", none⟩
  | some price =>
    match findStock user.stocks stockTicker with
    | none => ⟨Response.send "Not enough shares to sell.", none⟩
    | some existingStock =>
      if Num.lt (Num.fin existingStock.numShares) (toNumber sellNumShares) then
        ⟨Response.send "Not enough shares to sell.", none⟩
      else
        match toNumber sellNumShares, parseInt10 sellNumShares with
        | Num.fin n, Num.fin parsed =>
          ⟨Response.redirect "/main",
            some { user with
              stocks := sellStocks user.stocks existingStock stockTicker parsed price
              cashBalance := user.cashBalance + price * n
              totalBalance := user.cashBalance + price * n
                + holdingsValue
                    (sellStocks user.stocks existingStock stockTicker parsed price) }⟩
        | _, _ => ⟨Response.unanswered, none⟩

/-- Lines 133-137: one holding of the refresh of `GET /main`. -/
def refreshStock (quote : String → Option JSNum) (stock : Stock) : Stock :=
  match truthyNumber (quote stock.name) with
  | some currentPrice => { stock with curPrice := currentPrice }
  | none => stock

/-- The handler of `GET /main` from line 131 on, for a user that was found. -/
def mainPage (user : User) (quote : String → Option JSNum) : Outcome :=
  let updatedStocks := user.stocks.map (refreshStock quote)
  ⟨Response.render "mainPage",
    some { user with
      stocks := updatedStocks
      totalBalance := user.cashBalance + holdingsValue updatedStocks }⟩

/-! ## The routes, with their session gate -/

/-- The user a request acts for: `none` when the session carries no
username or `User.findOne` finds nobody, and the handler redirects to `/`. -/
def currentUser (sessionUsername : Option String) (findOne : String → Option User) :
    Option User :=
  match sessionUsername with
  | none => none
  | some username => if username = "" then none else findOne username

/-- The route `POST /buy`. -/
def postBuy (sessionUsername : Option String) (findOne : String → Option User)
    (provider : String → ProviderOutcome) (stockTicker : String) (numShares : String) :
    Outcome :=
  match currentUser sessionUsername findOne with
  | none => ⟨Response.redirect "/", none⟩
  | some user => buy user stockTicker numShares (getStockPrice provider stockTicker)

/-- The route `POST /sell`. -/
def postSell (sessionUsername : Option String) (findOne : String → Option User)
    (provider : String → ProviderOutcome) (stockTicker : String) (sellNumShares : String) :
    Outcome :=
  match currentUser sessionUsername findOne with
  | none => ⟨Response.redirect "/", none⟩
  | some user => sell user stockTicker sellNumShares (getStockPrice provider stockTicker)

/-- The route `GET /main`. -/
def getMain (sessionUsername : Option String) (findOne : String → Option User)
    (provider : String → ProviderOutcome) : Outcome :=
  match currentUser sessionUsername findOne with
  | none => ⟨Response.redirect "/", none⟩
  | some user => mainPage user (getStockPrice provider)

/-- Shares held of a ticker: those of the holding that `find` returns, `0`
when the ticker is not held. -/
def sharesHeld (stocks : List Stock) (stockTicker : String) : ℚ :=
  match findStock stocks stockTicker with
  | some stock => stock.numShares
  | none => 0

/-- The tickers of a holdings list, in list order. -/
def tickers (stocks : List Stock) : List String :=
  stocks.map Stock.name

/-- A provider that answers status 200 with the price field `-1.5`. -/
def negativeQuote : String → ProviderOutcome :=
  fun _ => ProviderOutcome.http 200 ⟨some ⟨some "-1.5"⟩⟩

/-! ## Auxiliary lemmas -/

theorem holdingsValue_foldl (stocks : List Stock) (init : ℚ) :
    stocks.foldl (fun total stock => total + stock.curPrice * stock.numShares) init
      = init + (stocks.map (fun stock => stock.curPrice * stock.numShares)).sum := by
  induction stocks generalizing init with
  | nil => simp
  | cons s rest ih => simp [ih, add_assoc]

theorem holdingsValue_eq_sum (stocks : List Stock) :
    holdingsValue stocks = (stocks.map (fun stock => stock.curPrice * stock.numShares)).sum := by
  simp [holdingsValue, holdingsValue_foldl]

theorem findStock_name {stocks : List Stock} {t : String} {s : Stock}
    (h : findStock stocks t = some s) : s.name = t := by
  have := List.find?_some h
  simpa using this

theorem findStock_mem {stocks : List Stock} {t : String} {s : Stock}
    (h : findStock stocks t = some s) : s ∈ stocks :=
  List.mem_of_find?_eq_some h

theorem findStock_eq_none {stocks : List Stock} {t : String} :
    findStock stocks t = none ↔ t ∉ tickers stocks := by
  simp only [findStock, tickers, List.find?_eq_none, List.mem_map, not_exists, not_and]
  constructor
  · intro h s hs hname
    exact absurd hname (by simpa using h s hs)
  · intro h s hs
    simpa using h s hs

theorem findStock_updateStock (t : String) (f : Stock → Stock)
    (hf : ∀ s, (f s).name = s.name) (stocks : List Stock) :
    findStock (updateStock t f stocks) t = (findStock stocks t).map f := by
  induction stocks with
  | nil => simp [updateStock, findStock]
  | cons s rest ih =>
    by_cases hs : s.name = t
    · simp [updateStock, findStock, hs, hf]
    · simpa [updateStock, findStock, hs] using ih

theorem tickers_updateStock (t : String) (f : Stock → Stock)
    (hf : ∀ s, (f s).name = s.name) (stocks : List Stock) :
    tickers (updateStock t f stocks) = tickers stocks := by
  induction stocks with
  | nil => simp [updateStock, tickers]
  | cons s rest ih =>
    by_cases hs : s.name = t
    · simp [updateStock, tickers, hs, hf]
    · simpa [updateStock, tickers, hs] using ih

theorem length_updateStock (t : String) (f : Stock → Stock) (stocks : List Stock) :
    (updateStock t f stocks).length = stocks.length := by
  induction stocks with
  | nil => simp [updateStock]
  | cons s rest ih =>
    by_cases hs : s.name = t
    · simp [updateStock, hs]
    · simp [updateStock, hs, ih]

theorem mem_updateStock {t : String} {f : Stock → Stock} {stocks : List Stock} {x : Stock}
    (hx : x ∈ updateStock t f stocks) :
    x ∈ stocks ∨ ∃ s, findStock stocks t = some s ∧ x = f s := by
  induction stocks with
  | nil => simp [updateStock] at hx
  | cons s rest ih =>
    by_cases hs : s.name = t
    · simp only [updateStock, hs, if_true, List.mem_cons] at hx
      rcases hx with hx | hx
      · right
        exact ⟨s, by simp [findStock, hs], hx⟩
      · left
        exact List.mem_cons_of_mem _ hx
    · simp only [updateStock, hs, if_false, List.mem_cons] at hx
      rcases hx with hx | hx
      · left
        simp [hx]
      · rcases ih hx with h | ⟨s0, h0, hx0⟩
        · left
          exact List.mem_cons_of_mem _ h
        · right
          exact ⟨s0, by simpa [findStock, hs] using h0, hx0⟩

theorem findStock_append_singleton {stocks : List Stock} {t : String} (x : Stock)
    (hnone : findStock stocks t = none) (hx : x.name = t) :
    findStock (stocks ++ [x]) t = some x := by
  simp only [findStock] at hnone ⊢
  simp [List.find?_append, hnone, hx]

theorem findStock_filter_ne (stocks : List Stock) (t : String) :
    findStock (stocks.filter (fun stock => decide (stock.name ≠ t))) t = none := by
  rw [findStock_eq_none]
  simp [tickers]

theorem truthyNumber_fin {p : ℚ} (hp : p ≠ 0) : truthyNumber (some (JSNum.fin p)) = some p := by
  simp [truthyNumber, hp]

theorem truthyNumber_ne_zero {v : Option JSNum} {p : ℚ} (h : truthyNumber v = some p) :
    p ≠ 0 := by
  cases v with
  | none => simp [truthyNumber] at h
  | some x =>
    cases x with
    | nan => simp [truthyNumber] at h
    | fin q =>
      by_cases hq : q = 0
      · simp [truthyNumber, hq] at h
      · simp [truthyNumber, hq] at h
        exact h ▸ hq

theorem buy_of_funds {user : User} {t field : String} {n k price : ℚ} {v : Option JSNum}
    {stocks : List Stock} (hv : truthyNumber v = some price)
    (hnum : toNumber field = Num.fin n) (hint : parseInt10 field = Num.fin k)
    (hf : ¬ user.cashBalance < price * n)
    (hst : buyStocks user.stocks t n k price = some stocks) :
    buy user t field v =
      ⟨Response.redirect "/main",
        some { user with
          stocks := stocks
          cashBalance := user.cashBalance - price * n
          totalBalance := user.cashBalance - price * n + holdingsValue stocks }⟩ := by
  simp [buy, hv, hnum, hint, hst, Num.mul, Num.lt, hf]

theorem buy_saved {user u : User} {t field : String} {v : Option JSNum}
    (h : (buy user t field v).saved = some u) :
    ∃ price n k stocks, truthyNumber v = some price ∧ toNumber field = Num.fin n ∧
      parseInt10 field = Num.fin k ∧ ¬ user.cashBalance < price * n ∧
      buyStocks user.stocks t n k price = some stocks ∧
      u = { user with
          stocks := stocks
          cashBalance := user.cashBalance - price * n
          totalBalance := user.cashBalance - price * n + holdingsValue stocks } := by
  unfold buy at h
  cases hv : truthyNumber v with
  | none => simp [hv] at h
  | some price =>
    cases hnum : toNumber field with
    | nan => simp [hv, hnum, Num.mul, Num.lt] at h
    | inf s =>
      exfalso
      cases s <;> simp [hv, hnum, Num.mul, Num.lt] at h <;>
        try (repeat' split at h) <;> simp at h
    | fin n =>
      cases hint : parseInt10 field with
      | nan =>
        exfalso
        simp [hv, hnum, hint, Num.mul, Num.lt] at h
        try (repeat' split at h) <;> simp at h
      | inf s =>
        exfalso
        simp [hv, hnum, hint, Num.mul, Num.lt] at h
        try (repeat' split at h) <;> simp at h
      | fin k =>
        by_cases hf : user.cashBalance < price * n
        · simp [hv, hnum, hint, Num.mul, Num.lt, hf] at h
        · cases hst : buyStocks user.stocks t n k price with
          | none => simp [hv, hnum, hint, Num.mul, Num.lt, hf, hst] at h
          | some stocks =>
            simp [hv, hnum, hint, Num.mul, Num.lt, hf, hst] at h
            exact ⟨price, n, k, stocks, rfl, rfl, rfl, hf, hst, h.symm⟩

theorem buyStocks_held {stocks : List Stock} {t : String} {n k price : ℚ} {old : Stock}
    (hfind : findStock stocks t = some old)
    (hne : (buyExisting n k price old).buyPrice ≠ Num.nan) :
    buyStocks stocks t n k price = some (updateStock t (buyExisting n k price) stocks) := by
  unfold buyStocks
  rw [hfind]
  dsimp only
  split
  · next h => exact absurd h hne
  · rfl

theorem buyStocks_new {stocks : List Stock} {t : String} {n k price : ℚ}
    (hfind : findStock stocks t = none) :
    buyStocks stocks t n k price
      = some (stocks ++ [Stock.mk t k (Num.fin price) price]) := by
  simp [buyStocks, hfind]

theorem buyStocks_some {stocks l : List Stock} {t : String} {n k price : ℚ}
    (h : buyStocks stocks t n k price = some l) :
    (∃ old, findStock stocks t = some old ∧
        (buyExisting n k price old).buyPrice ≠ Num.nan ∧
        l = updateStock t (buyExisting n k price) stocks) ∨
    (findStock stocks t = none ∧ l = stocks ++ [Stock.mk t k (Num.fin price) price]) := by
  unfold buyStocks at h
  cases hfind : findStock stocks t with
  | none =>
    right
    simp only [hfind, Option.some.injEq] at h
    exact ⟨rfl, h.symm⟩
  | some old =>
    left
    simp only [hfind] at h
    split at h
    · simp at h
    · next hne =>
      simp only [Option.some.injEq] at h
      exact ⟨old, rfl, fun hnan => hne hnan, h.symm⟩

theorem sell_of_shares {user : User} {t field : String} {n k price : ℚ} {v : Option JSNum}
    {old : Stock} (hv : truthyNumber v = some price)
    (hnum : toNumber field = Num.fin n) (hint : parseInt10 field = Num.fin k)
    (hfind : findStock user.stocks t = some old) (hs : ¬ old.numShares < n) :
    sell user t field v =
      ⟨Response.redirect "/main",
        some { user with
          stocks := sellStocks user.stocks old t k price
          cashBalance := user.cashBalance + price * n
          totalBalance := user.cashBalance + price * n
            + holdingsValue (sellStocks user.stocks old t k price) }⟩ := by
  simp [sell, hv, hnum, hint, hfind, Num.lt, hs]

theorem sell_saved {user u : User} {t field : String} {v : Option JSNum}
    (h : (sell user t field v).saved = some u) :
    ∃ price n k old, truthyNumber v = some price ∧ toNumber field = Num.fin n ∧
      parseInt10 field = Num.fin k ∧ findStock user.stocks t = some old ∧
      ¬ old.numShares < n ∧
      u = { user with
          stocks := sellStocks user.stocks old t k price
          cashBalance := user.cashBalance + price * n
          totalBalance := user.cashBalance + price * n
            + holdingsValue (sellStocks user.stocks old t k price) } := by
  unfold sell at h
  cases hv : truthyNumber v with
  | none => simp [hv] at h
  | some price =>
    cases hfind : findStock user.stocks t with
    | none => simp [hv, hfind] at h
    | some old =>
      cases hnum : toNumber field with
      | nan => simp [hv, hfind, hnum, Num.lt] at h
      | inf s =>
        exfalso
        cases s <;> simp [hv, hfind, hnum, Num.lt] at h
      | fin n =>
        cases hint : parseInt10 field with
        | nan =>
          exfalso
          simp [hv, hfind, hnum, hint, Num.lt] at h
          try (repeat' split at h) <;> simp at h
        | inf s =>
          exfalso
          simp [hv, hfind, hnum, hint, Num.lt] at h
          try (repeat' split at h) <;> simp at h
        | fin k =>
          by_cases hs : old.numShares < n
          · simp [hv, hfind, hnum, hint, Num.lt, hs] at h
          · simp [hv, hfind, hnum, hint, Num.lt, hs] at h
            exact ⟨price, n, k, old, rfl, rfl, rfl, rfl, hs, h.symm⟩

/-! ## Plain decimal numerals are read alike by the two readers -/

theorem isDigit_bounds {c : Char} (h : c.isDigit = true) : 48 ≤ c.toNat ∧ c.toNat ≤ 57 := by
  simp only [Char.isDigit, Bool.and_eq_true, decide_eq_true_eq] at h
  obtain ⟨h1, h2⟩ := h
  have h1' : (48 : UInt32).toNat ≤ c.val.toNat := h1
  have h2' : c.val.toNat ≤ (57 : UInt32).toNat := h2
  exact ⟨h1', h2'⟩

theorem isStrWhiteSpace_of_isDigit {c : Char} (h : c.isDigit = true) :
    isStrWhiteSpace c = false := by
  have hb := isDigit_bounds h
  simp only [isStrWhiteSpace, List.contains_eq_any_beq, List.any_cons, List.any_nil,
    Bool.or_false, Bool.or_eq_false_iff, beq_eq_false_iff_ne, ne_eq]
  omega

theorem ne_of_isDigit {c d : Char} (h : c.isDigit = true) (hd : d.toNat < 48 ∨ 57 < d.toNat) :
    c ≠ d := by
  have hb := isDigit_bounds h
  intro hcd
  subst hcd
  omega

theorem takeWhile_digits {ds : List Char} (hall : ∀ c ∈ ds, c.isDigit = true) :
    ds.takeWhile Char.isDigit = ds :=
  List.takeWhile_eq_self_iff.mpr hall

theorem dropWhile_digits {ds : List Char} (hall : ∀ c ∈ ds, c.isDigit = true) :
    ds.dropWhile Char.isDigit = [] :=
  List.dropWhile_eq_nil_iff.mpr hall

theorem dropWhile_ws_digits {c : Char} {r : List Char} (hc : c.isDigit = true) :
    (c :: r).dropWhile isStrWhiteSpace = c :: r := by
  simp [List.dropWhile_cons, isStrWhiteSpace_of_isDigit hc]

theorem trimWhiteSpace_digits {ds : List Char} (hne : ds ≠ [])
    (hall : ∀ c ∈ ds, c.isDigit = true) : trimWhiteSpace ds = ds := by
  unfold trimWhiteSpace
  obtain ⟨c, r, rfl⟩ := List.exists_cons_of_ne_nil hne
  rw [dropWhile_ws_digits (hall c (List.mem_cons_self _ _))]
  have hrev : (c :: r).reverse ≠ [] := by simp
  obtain ⟨d, r2, hd⟩ := List.exists_cons_of_ne_nil hrev
  have hdm : d ∈ c :: r := by
    have : d ∈ (c :: r).reverse := by rw [hd]; exact List.mem_cons_self _ _
    exact List.mem_reverse.mp this
  rw [hd, dropWhile_ws_digits (hall d hdm), ← hd, List.reverse_reverse]

theorem parseInt10_digits {ds : List Char} (hne : ds ≠ [])
    (hall : ∀ c ∈ ds, c.isDigit = true) :
    parseInt10 (String.mk ds) = Num.fin (digitsToNat ds : ℚ) := by
  obtain ⟨c, r, rfl⟩ := List.exists_cons_of_ne_nil hne
  have hc := hall c (List.mem_cons_self _ _)
  unfold parseInt10
  rw [show (String.mk (c :: r)).toList = c :: r from rfl, dropWhile_ws_digits hc]
  split
  · next heq =>
    exact absurd (List.cons.inj heq).1 (ne_of_isDigit hc (by decide))
  · next heq =>
    exact absurd (List.cons.inj heq).1 (ne_of_isDigit hc (by decide))
  · rw [takeWhile_digits hall]
    simp

theorem toNumber_digits {ds : List Char} (hne : ds ≠ [])
    (hall : ∀ c ∈ ds, c.isDigit = true) :
    toNumber (String.mk ds) = Num.fin (digitsToNat ds : ℚ) := by
  unfold toNumber
  rw [show (String.mk ds).toList = ds from rfl, trimWhiteSpace_digits hne hall]
  obtain ⟨c, r, rfl⟩ := List.exists_cons_of_ne_nil hne
  have hc := hall c (List.mem_cons_self _ _)
  have hnd : nonDecimalLiteral (c :: r) = none := by
    unfold nonDecimalLiteral
    split
    · next c2 rest heq =>
      have h2 : c2.isDigit = true := by
        have := (List.cons.inj heq).2
        rw [this] at hall
        exact hall c2 (by simp)
      simp [ne_of_isDigit h2 (d := 'x') (by decide), ne_of_isDigit h2 (d := 'X') (by decide),
        ne_of_isDigit h2 (d := 'o') (by decide), ne_of_isDigit h2 (d := 'O') (by decide),
        ne_of_isDigit h2 (d := 'b') (by decide), ne_of_isDigit h2 (d := 'B') (by decide)]
    · rfl
  have hdec : strDecimalLiteral (c :: r) = Num.fin (digitsToNat (c :: r) : ℚ) := by
    unfold strDecimalLiteral
    have hI : ¬ (c :: r = ['I', 'n', 'f', 'i', 'n', 'i', 't', 'y']) := by
      intro heq
      exact absurd (List.cons.inj heq).1 (ne_of_isDigit hc (by decide))
    rw [if_neg hI, dropWhile_digits hall, takeWhile_digits hall]
    simp [exponentFull, scale10]
  simp only [List.isEmpty_cons, Bool.false_eq_true, if_false, hnd]
  split
  · next heq =>
    exact absurd (List.cons.inj heq).1 (ne_of_isDigit hc (by decide))
  · next heq =>
    exact absurd (List.cons.inj heq).1 (ne_of_isDigit hc (by decide))
  · exact hdec

/-! ## Buying -/

/-- The average cost assigned at line 207 when both readings of the field
are `n`: the share count after the increment, less `n`, is the old count. -/
theorem buyExisting_buyPrice (n price : ℚ) (old : Stock) :
    (buyExisting n n price old).buyPrice
      = Num.div
          (Num.add (Num.mul old.buyPrice (Num.fin old.numShares)) (Num.fin (price * n)))
          (Num.fin (old.numShares + n)) := by
  simp [buyExisting]

theorem buyExisting_buyPrice_fin (n price b : ℚ) (old : Stock)
    (hb : old.buyPrice = Num.fin b) (hne : old.numShares + n ≠ 0) :
    (buyExisting n n price old).buyPrice
      = Num.fin ((b * old.numShares + price * n) / (old.numShares + n)) := by
  rw [buyExisting_buyPrice, hb]
  simp [Num.mul, Num.add, Num.div, hne]

/-- C1, amended: when the `numShares` field is read as the same integer
`n > 0` by the coercion and by `parseInt` (a plain decimal numeral), the
price is `> 0` and the ticker is held, every buy that is saved leaves the
holding with average cost `(oldAvgCost * oldShares + price * n) / (oldShares + n)`
in Number arithmetic, `oldShares + n` shares and last price `price`; the buy
is saved unless that quotient is `NaN`, and for a finite old average cost and
`oldShares + n` other than `0` the quotient is the finite weighted average. -/
theorem buy_existing_weighted_average (user : User) (t field : String) (n : ℕ) (price : ℚ)
    (old : Stock) (_hn : 0 < n) (hp : 0 < price)
    (hnum : toNumber field = Num.fin (n : ℚ)) (hint : parseInt10 field = Num.fin (n : ℚ))
    (hfind : findStock user.stocks t = some old)
    (hfunds : price * (n : ℚ) ≤ user.cashBalance) :
    (∀ u, (buy user t field (some (JSNum.fin price))).saved = some u →
      ∃ h, findStock u.stocks t = some h ∧
        h.buyPrice
          = Num.div
              (Num.add (Num.mul old.buyPrice (Num.fin old.numShares))
                (Num.fin (price * (n : ℚ))))
              (Num.fin (old.numShares + (n : ℚ))) ∧
        h.numShares = old.numShares + (n : ℚ) ∧
        h.curPrice = price) ∧
    ((buy user t field (some (JSNum.fin price))).saved = none ↔
      Num.div
          (Num.add (Num.mul old.buyPrice (Num.fin old.numShares))
            (Num.fin (price * (n : ℚ))))
          (Num.fin (old.numShares + (n : ℚ))) = Num.nan) ∧
    (∀ b, old.buyPrice = Num.fin b → old.numShares + (n : ℚ) ≠ 0 →
      ∃ u h, (buy user t field (some (JSNum.fin price))).saved = some u ∧
        findStock u.stocks t = some h ∧
        h.buyPrice
          = Num.fin ((b * old.numShares + price * (n : ℚ)) / (old.numShares + (n : ℚ))) ∧
        h.numShares = old.numShares + (n : ℚ) ∧
        h.curPrice = price) := by
  have hv : truthyNumber (some (JSNum.fin price)) = some price :=
    truthyNumber_fin (ne_of_gt hp)
  have hf : ¬ user.cashBalance < price * (n : ℚ) := not_lt.mpr hfunds
  have hfound : findStock (updateStock t (buyExisting (n : ℚ) (n : ℚ) price) user.stocks) t
      = some (buyExisting (n : ℚ) (n : ℚ) price old) := by
    rw [findStock_updateStock t (buyExisting (n : ℚ) (n : ℚ) price) (fun _ => rfl), hfind]
    rfl
  have hsaved : ∀ (hne : (buyExisting (n : ℚ) (n : ℚ) price old).buyPrice ≠ Num.nan),
      (buy user t field (some (JSNum.fin price))).saved
        = some { user with
            stocks := updateStock t (buyExisting (n : ℚ) (n : ℚ) price) user.stocks
            cashBalance := user.cashBalance - price * (n : ℚ)
            totalBalance := user.cashBalance - price * (n : ℚ)
              + holdingsValue (updateStock t (buyExisting (n : ℚ) (n : ℚ) price) user.stocks) } := by
    intro hne
    rw [buy_of_funds hv hnum hint hf (buyStocks_held hfind hne)]
  refine ⟨?_, ?_, ?_⟩
  · intro u hu
    by_cases hne : (buyExisting (n : ℚ) (n : ℚ) price old).buyPrice = Num.nan
    · exfalso
      obtain ⟨p2, n2, k2, stocks, hv2, hn2, hk2, _, hst, _⟩ := buy_saved hu
      rw [hv] at hv2
      rw [hnum] at hn2
      rw [hint] at hk2
      cases hv2
      cases hn2
      cases hk2
      rcases buyStocks_some hst with ⟨o2, ho2, hnn, _⟩ | ⟨hnone, _⟩
      · rw [hfind] at ho2
        cases ho2
        exact hnn hne
      · rw [hfind] at hnone
        exact absurd hnone (by simp)
    · have h2 := hsaved hne
      rw [hu] at h2
      cases h2
      exact ⟨_, hfound, buyExisting_buyPrice _ _ _, rfl, rfl⟩
  · rw [← buyExisting_buyPrice]
    constructor
    · intro hnone
      by_contra hne
      rw [hsaved hne] at hnone
      exact absurd hnone (by simp)
    · intro hnan
      cases hs : (buy user t field (some (JSNum.fin price))).saved with
      | none => rfl
      | some u =>
        exfalso
        obtain ⟨p2, n2, k2, stocks, hv2, hn2, hk2, _, hst, _⟩ := buy_saved hs
        rw [hv] at hv2
        rw [hnum] at hn2
        rw [hint] at hk2
        cases hv2
        cases hn2
        cases hk2
        rcases buyStocks_some hst with ⟨o2, ho2, hnn, _⟩ | ⟨hnone, _⟩
        · rw [hfind] at ho2
          cases ho2
          exact hnn hnan
        · rw [hfind] at hnone
          exact absurd hnone (by simp)
  · intro b hb hne0
    have hbp := buyExisting_buyPrice_fin (n : ℚ) price b old hb hne0
    have hne : (buyExisting (n : ℚ) (n : ℚ) price old).buyPrice ≠ Num.nan := by
      rw [hbp]
      simp
    exact ⟨_, _, hsaved hne, hfound, hbp, rfl, rfl⟩

/-- The example of C1: 10 shares held at average cost 100, 10 more bought
at 200 with the field `10`, give average cost 150 and 20 shares. -/
theorem buy_existing_weighted_average_witness :
    ∃ u h, (buy ⟨"ann", "hash", 10000, 10000, [⟨"AAPL", 10, Num.fin 100, 100⟩]⟩ "AAPL"
        "10" (some (JSNum.fin 200))).saved = some u ∧
      findStock u.stocks "AAPL" = some h ∧
      h.buyPrice = Num.fin 150 ∧ h.numShares = 20 ∧ h.curPrice = 200 := by
  obtain ⟨u, h, h1, h2, h3, h4, h5⟩ :=
    (buy_existing_weighted_average
      ⟨"ann", "hash", 10000, 10000, [⟨"AAPL", 10, Num.fin 100, 100⟩]⟩
      "AAPL" "10" 10 200 ⟨"AAPL", 10, Num.fin 100, 100⟩ (by decide) (by norm_num)
      (@toNumber_digits ['1', '0'] (by simp) (by decide))
      (@parseInt10_digits ['1', '0'] (by simp) (by decide))
      (by simp [findStock]) (by norm_num)).2.2 100 rfl (by norm_num)
  refine ⟨u, h, h1, h2, ?_, ?_, h5⟩
  · rw [h3]; norm_num
  · rw [h4]; norm_num

/-- Against C1: the field `1e1` is the integer 10 for the operators and 1
for `parseInt`; with 10 shares held at average cost 100 and a price of 200,
the buy is saved with 11 shares at average cost `2100/11`, not 20 shares at
150. -/
theorem buy_exponent_field_average :
    toNumber "1e1" = Num.fin 10 ∧ parseInt10 "1e1" = Num.fin 1 ∧
    (buy ⟨"ann", "hash", 10000, 10000, [⟨"AAPL", 10, Num.fin 100, 100⟩]⟩ "AAPL" "1e1"
        (some (JSNum.fin 200))).saved
      = some ⟨"ann", "hash", 8000, 10200, [⟨"AAPL", 11, Num.fin (2100 / 11), 200⟩]⟩ ∧
    (2100 / 11 : ℚ) ≠ (100 * 10 + 200 * 10) / (10 + 10) := by
  have hnum : toNumber "1e1" = Num.fin 10 := by
    simp [toNumber, trimWhiteSpace, isStrWhiteSpace, nonDecimalLiteral, strDecimalLiteral,
      exponentFull, digitsToNat, digitVal, scale10]
  have hint : parseInt10 "1e1" = Num.fin 1 := by
    simp [parseInt10, isStrWhiteSpace, digitsToNat, digitVal]
  have hst : buyStocks [⟨"AAPL", 10, Num.fin 100, 100⟩] "AAPL" 10 1 200
      = some [⟨"AAPL", 11, Num.fin (2100 / 11), 200⟩] := by
    simp [buyStocks, findStock, buyExisting, updateStock, Num.mul, Num.add, Num.div]
    norm_num
  refine ⟨hnum, hint, ?_, by norm_num⟩
  rw [buy_of_funds (truthyNumber_fin (by norm_num)) hnum hint (by norm_num) hst]
  simp [holdingsValue]
  norm_num

/-- C2, amended: when the `numShares` field is read as the same integer
`n > 0` by the coercion and by `parseInt` (a plain decimal numeral), the
price is `> 0` and `price * n <= cashBalance`, every buy that is saved has
cash balance `cashBalance - price * n` and the shares held of the ticker
increased by exactly `n`, a ticker not held counting for `0`; the buy of a
ticker not held is saved, with a new holding of average cost `price`, `n`
shares and last price `price` at the end of the list; the buy of a ticker
held is saved when the old average cost is finite and the new share count
is not `0`. -/
theorem buy_cash_and_shares (user : User) (t field : String) (n : ℕ) (price : ℚ)
    (_hn : 0 < n) (hp : 0 < price)
    (hnum : toNumber field = Num.fin (n : ℚ)) (hint : parseInt10 field = Num.fin (n : ℚ))
    (hfunds : price * (n : ℚ) ≤ user.cashBalance) :
    (∀ u, (buy user t field (some (JSNum.fin price))).saved = some u →
      u.cashBalance = user.cashBalance - price * (n : ℚ) ∧
      sharesHeld u.stocks t = sharesHeld user.stocks t + (n : ℚ)) ∧
    (findStock user.stocks t = none →
      ∃ u, (buy user t field (some (JSNum.fin price))).saved = some u ∧
        u.stocks = user.stocks ++ [Stock.mk t (n : ℚ) (Num.fin price) price] ∧
        findStock u.stocks t = some (Stock.mk t (n : ℚ) (Num.fin price) price)) ∧
    (∀ old b, findStock user.stocks t = some old → old.buyPrice = Num.fin b →
      old.numShares + (n : ℚ) ≠ 0 →
      ∃ u, (buy user t field (some (JSNum.fin price))).saved = some u) := by
  have hv : truthyNumber (some (JSNum.fin price)) = some price :=
    truthyNumber_fin (ne_of_gt hp)
  have hf : ¬ user.cashBalance < price * (n : ℚ) := not_lt.mpr hfunds
  refine ⟨?_, ?_, ?_⟩
  · intro u hu
    obtain ⟨p2, n2, k2, stocks, hv2, hn2, hk2, _, hst, rfl⟩ := buy_saved hu
    rw [hv] at hv2
    rw [hnum] at hn2
    rw [hint] at hk2
    cases hv2
    cases hn2
    cases hk2
    refine ⟨rfl, ?_⟩
    rcases buyStocks_some hst with ⟨old, hfind, _, rfl⟩ | ⟨hfind, rfl⟩
    · simp only [sharesHeld, hfind]
      rw [findStock_updateStock t (buyExisting (n : ℚ) (n : ℚ) price) (fun _ => rfl), hfind]
      simp [buyExisting]
    · simp only [sharesHeld, hfind]
      rw [findStock_append_singleton _ hfind rfl]
      simp
  · intro hfind
    refine ⟨_, by rw [buy_of_funds hv hnum hint hf (buyStocks_new hfind)], rfl, ?_⟩
    exact findStock_append_singleton _ hfind rfl
  · intro old b hfind hb hne0
    have hne : (buyExisting (n : ℚ) (n : ℚ) price old).buyPrice ≠ Num.nan := by
      rw [buyExisting_buyPrice_fin (n : ℚ) price b old hb hne0]
      simp
    exact ⟨_, by rw [buy_of_funds hv hnum hint hf (buyStocks_held hfind hne)]⟩

/-- A first purchase of 3 shares at 50 out of 10000 in cash, field `3`. -/
theorem buy_cash_and_shares_witness :
    ∃ u, (buy ⟨"ann", "hash", 10000, 10000, []⟩ "MSFT" "3"
        (some (JSNum.fin 50))).saved = some u ∧
      u.cashBalance = 9850 ∧ sharesHeld u.stocks "MSFT" = 3 ∧
      u.stocks = [Stock.mk "MSFT" 3 (Num.fin 50) 50] := by
  have h := buy_cash_and_shares ⟨"ann", "hash", 10000, 10000, []⟩ "MSFT" "3" 3 50
    (by decide) (by norm_num)
    (@toNumber_digits ['3'] (by simp) (by decide))
    (@parseInt10_digits ['3'] (by simp) (by decide)) (by norm_num)
  obtain ⟨u, h1, h2, _⟩ := h.2.1 (by simp [findStock])
  obtain ⟨h3, h4⟩ := h.1 u h1
  refine ⟨u, h1, ?_, ?_, ?_⟩
  · rw [h3]; norm_num
  · rw [h4]; simp [sharesHeld, findStock]
  · simpa using h2

/-- Against C2: the field `1e3` is the integer 1000 for the operators and 1
for `parseInt`; at a price of 10 the buy is saved with 10000 paid and a
holding of 1 share, not 1000. -/
theorem buy_exponent_field_shares :
    toNumber "1e3" = Num.fin 1000 ∧ parseInt10 "1e3" = Num.fin 1 ∧
    (buy ⟨"ann", "hash", 10000, 10000, []⟩ "ACME" "1e3" (some (JSNum.fin 10))).saved
      = some ⟨"ann", "hash", 0, 10, [⟨"ACME", 1, Num.fin 10, 10⟩]⟩ ∧
    sharesHeld [⟨"ACME", 1, Num.fin 10, 10⟩] "ACME" ≠ sharesHeld [] "ACME" + 1000 := by
  have hnum : toNumber "1e3" = Num.fin 1000 := by
    simp [toNumber, trimWhiteSpace, isStrWhiteSpace, nonDecimalLiteral, strDecimalLiteral,
      exponentFull, digitsToNat, digitVal, scale10]
    norm_num
  have hint : parseInt10 "1e3" = Num.fin 1 := by
    simp [parseInt10, isStrWhiteSpace, digitsToNat, digitVal]
  refine ⟨hnum, hint, ?_, by simp [sharesHeld, findStock]⟩
  rw [buy_of_funds (truthyNumber_fin (by norm_num)) hnum hint (by norm_num)
    (buyStocks_new (by simp [findStock]))]
  simp [holdingsValue]
  norm_num

/-! ## Selling -/

/-- C4, amended: when the `sellNumShares` field is read as the same integer
`n` by the coercion and by `parseInt` (a plain decimal numeral), with
`0 < n < oldShares` and a price `> 0`, the sell is saved; the holding stays
in the list with `oldShares - n` shares, last price `price` and the average
cost it had, and the cash balance is `cashBalance + price * n`. -/
theorem sell_keeps_cost_basis (user : User) (t field : String) (n : ℕ) (price : ℚ)
    (old : Stock) (_hn : 0 < n) (hp : 0 < price)
    (hnum : toNumber field = Num.fin (n : ℚ)) (hint : parseInt10 field = Num.fin (n : ℚ))
    (hfind : findStock user.stocks t = some old)
    (hlt : (n : ℚ) < old.numShares) :
    ∃ u, (sell user t field (some (JSNum.fin price))).saved = some u ∧
      findStock u.stocks t
        = some { old with numShares := old.numShares - (n : ℚ), curPrice := price } ∧
      u.stocks.length = user.stocks.length ∧
      u.cashBalance = user.cashBalance + price * (n : ℚ) := by
  have hb := @sell_of_shares user t field (n : ℚ) (n : ℚ) price (some (JSNum.fin price)) old
    (truthyNumber_fin (ne_of_gt hp)) hnum hint hfind (not_lt.mpr (le_of_lt hlt))
  have hne : ¬ old.numShares - (n : ℚ) = 0 := by
    intro h
    linarith
  refine ⟨_, by rw [hb], ?_, ?_, rfl⟩
  · simp only [sellStocks, hne, if_false]
    rw [findStock_updateStock t (sellExisting (n : ℚ) price) (fun _ => rfl), hfind]
    simp [sellExisting]
  · simp only [sellStocks, hne, if_false]
    exact length_updateStock _ _ _

/-- The example of C4: 20 shares held at average cost 150, 5 sold at 300
with the field `5`, leave 15 shares at average cost 150. -/
theorem sell_keeps_cost_basis_witness :
    ∃ u, (sell ⟨"ann", "hash", 0, 3000, [⟨"AAPL", 20, Num.fin 150, 150⟩]⟩ "AAPL"
        "5" (some (JSNum.fin 300))).saved = some u ∧
      findStock u.stocks "AAPL" = some ⟨"AAPL", 15, Num.fin 150, 300⟩ ∧
      u.cashBalance = 1500 := by
  obtain ⟨u, h1, h2, _, h4⟩ :=
    sell_keeps_cost_basis ⟨"ann", "hash", 0, 3000, [⟨"AAPL", 20, Num.fin 150, 150⟩]⟩
      "AAPL" "5" 5 300 ⟨"AAPL", 20, Num.fin 150, 150⟩ (by decide) (by norm_num)
      (@toNumber_digits ['5'] (by simp) (by decide))
      (@parseInt10_digits ['5'] (by simp) (by decide))
      (by simp [findStock]) (by norm_num)
  refine ⟨u, h1, ?_, ?_⟩
  · rw [h2]; norm_num
  · rw [h4]; norm_num

/-- Against C4: the field `1e1` is the integer 10 for the comparison and the
proceeds and 1 for `parseInt`; with 20 shares held and a price of 300 the
sell is saved with 3000 credited and 19 shares left, not 10. -/
theorem sell_exponent_field_shares :
    toNumber "1e1" = Num.fin 10 ∧ parseInt10 "1e1" = Num.fin 1 ∧
    (sell ⟨"ann", "hash", 0, 3000, [⟨"AAPL", 20, Num.fin 150, 150⟩]⟩ "AAPL" "1e1"
        (some (JSNum.fin 300))).saved
      = some ⟨"ann", "hash", 3000, 8700, [⟨"AAPL", 19, Num.fin 150, 300⟩]⟩ ∧
    (19 : ℚ) ≠ 20 - 10 := by
  have hnum : toNumber "1e1" = Num.fin 10 := by
    simp [toNumber, trimWhiteSpace, isStrWhiteSpace, nonDecimalLiteral, strDecimalLiteral,
      exponentFull, digitsToNat, digitVal, scale10]
  have hint : parseInt10 "1e1" = Num.fin 1 := by
    simp [parseInt10, isStrWhiteSpace, digitsToNat, digitVal]
  refine ⟨hnum, hint, ?_, by norm_num⟩
  rw [@sell_of_shares _ "AAPL" "1e1" 10 1 300 _ ⟨"AAPL", 20, Num.fin 150, 150⟩
    (truthyNumber_fin (by norm_num)) hnum hint (by simp [findStock]) (by norm_num)]
  simp [sellStocks, updateStock, sellExisting, holdingsValue]
  norm_num

/-- C5, amended: when the field is read as the same integer `n > 0` by the
coercion and by `parseInt` (a plain decimal numeral) and every holding has a
share count `> 0`, every holding of the list saved by a buy or by a sell has
a share count `> 0`; and a sell of exactly the shares held is saved with the
list filtered of the ticker: no holding for it is left, the other holdings
are kept as they were, in the same order. -/
theorem no_zero_share_holding (user : User) (t field : String) (n : ℕ) (v : Option JSNum)
    (hn : 0 < n)
    (hnum : toNumber field = Num.fin (n : ℚ)) (hint : parseInt10 field = Num.fin (n : ℚ))
    (hpos : ∀ s ∈ user.stocks, 0 < s.numShares) :
    (∀ u, (buy user t field v).saved = some u → ∀ s ∈ u.stocks, 0 < s.numShares) ∧
    (∀ u, (sell user t field v).saved = some u → ∀ s ∈ u.stocks, 0 < s.numShares) ∧
    (∀ old price, findStock user.stocks t = some old → old.numShares = (n : ℚ) →
      truthyNumber v = some price →
      ∃ u, (sell user t field v).saved = some u ∧
        u.stocks = user.stocks.filter (fun stock => decide (stock.name ≠ t)) ∧
        findStock u.stocks t = none) := by
  have hnq : (0 : ℚ) < (n : ℚ) := by exact_mod_cast hn
  refine ⟨?_, ?_, ?_⟩
  · intro u hu s hs
    obtain ⟨price, n2, k2, stocks, _, hn2, hk2, _, hst, rfl⟩ := buy_saved hu
    rw [hnum] at hn2
    rw [hint] at hk2
    cases hn2
    cases hk2
    rcases buyStocks_some hst with ⟨old, hfind, _, rfl⟩ | ⟨hfind, rfl⟩
    · rcases mem_updateStock hs with hs | ⟨s0, h0, hs⟩
      · exact hpos s hs
      · have h1 := hpos s0 (findStock_mem h0)
        rw [hs]
        simp only [buyExisting]
        linarith
    · simp only [List.mem_append, List.mem_singleton] at hs
      rcases hs with hs | hs
      · exact hpos s hs
      · rw [hs]
        exact hnq
  · intro u hu s hs
    obtain ⟨price, n2, k2, old, _, hn2, hk2, hfind, hle, rfl⟩ := sell_saved hu
    rw [hnum] at hn2
    rw [hint] at hk2
    cases hn2
    cases hk2
    simp only [sellStocks] at hs
    by_cases hz : old.numShares - (n : ℚ) = 0
    · simp only [hz, if_true] at hs
      exact hpos s (List.mem_of_mem_filter hs)
    · simp only [hz, if_false] at hs
      rcases mem_updateStock hs with hs | ⟨s0, h0, hs⟩
      · exact hpos s hs
      · have hs0 : s0 = old := Option.some.inj (h0.symm.trans hfind)
        rw [hs, hs0]
        simp only [sellExisting]
        have h1 : (n : ℚ) ≤ old.numShares := not_lt.mp hle
        have h2 : 0 ≤ old.numShares - (n : ℚ) := by linarith
        exact lt_of_le_of_ne h2 (Ne.symm hz)
  · intro old price hfind heq hv
    have hle : ¬ old.numShares < (n : ℚ) := by rw [heq]; exact lt_irrefl _
    have hb := @sell_of_shares user t field (n : ℚ) (n : ℚ) price v old hv hnum hint hfind hle
    have hst : sellStocks user.stocks old t (n : ℚ) price
        = user.stocks.filter (fun stock => decide (stock.name ≠ t)) := by
      simp [sellStocks, heq]
    refine ⟨_, by rw [hb], hst, ?_⟩
    show findStock (sellStocks user.stocks old t (n : ℚ) price) t = none
    rw [hst]
    exact findStock_filter_ne _ _

/-- 15 shares sold down to nothing with the field `15`: the holding is gone
and the other holding is untouched. -/
theorem no_zero_share_holding_witness :
    ∃ u, (sell ⟨"ann", "hash", 0, 2350,
          [⟨"AAPL", 15, Num.fin 150, 150⟩, ⟨"MSFT", 2, Num.fin 40, 50⟩]⟩ "AAPL"
        "15" (some (JSNum.fin 300))).saved = some u ∧
      u.stocks = [⟨"MSFT", 2, Num.fin 40, 50⟩] ∧
      ∀ s ∈ u.stocks, 0 < s.numShares := by
  have hpos : ∀ s ∈ [(⟨"AAPL", 15, Num.fin 150, 150⟩ : Stock), ⟨"MSFT", 2, Num.fin 40, 50⟩],
      0 < s.numShares := by
    intro s hs
    simp only [List.mem_cons, List.mem_singleton, List.not_mem_nil, or_false] at hs
    rcases hs with rfl | rfl <;> norm_num
  have h := no_zero_share_holding
    ⟨"ann", "hash", 0, 2350, [⟨"AAPL", 15, Num.fin 150, 150⟩, ⟨"MSFT", 2, Num.fin 40, 50⟩]⟩
    "AAPL" "15" 15 (some (JSNum.fin 300)) (by decide)
    (@toNumber_digits ['1', '5'] (by simp) (by decide))
    (@parseInt10_digits ['1', '5'] (by simp) (by decide)) hpos
  obtain ⟨u, h1, h2, _⟩ := h.2.2 ⟨"AAPL", 15, Num.fin 150, 150⟩ 300 (by simp [findStock])
    (by norm_num) (by simp [truthyNumber])
  refine ⟨u, h1, ?_, h.2.1 u h1⟩
  rw [h2]
  simp [List.filter]

/-- Against C5: the field `0x10` is the integer 16 for the operators and 0
for `parseInt`; a buy of a ticker that is not held, at a price of 10, is
saved with 160 paid and a holding of 0 shares. -/
theorem buy_hex_field_zero_shares :
    toNumber "0x10" = Num.fin 16 ∧ parseInt10 "0x10" = Num.fin 0 ∧
    (buy ⟨"ann", "hash", 10000, 10000, []⟩ "ACME" "0x10" (some (JSNum.fin 10))).saved
      = some ⟨"ann", "hash", 9840, 9840, [⟨"ACME", 0, Num.fin 10, 10⟩]⟩ ∧
    ¬ ∀ s ∈ [(⟨"ACME", 0, Num.fin 10, 10⟩ : Stock)], 0 < s.numShares := by
  have hnum : toNumber "0x10" = Num.fin 16 := by
    simp [toNumber, trimWhiteSpace, isStrWhiteSpace, nonDecimalLiteral, radixLiteral,
      radixDigits, hexDigitVal]
  have hint : parseInt10 "0x10" = Num.fin 0 := by
    simp [parseInt10, isStrWhiteSpace, digitsToNat, digitVal]
  refine ⟨hnum, hint, ?_, by simp⟩
  rw [buy_of_funds (truthyNumber_fin (by norm_num)) hnum hint (by norm_num)
    (buyStocks_new (by simp [findStock]))]
  simp [holdingsValue]
  norm_num

/-- C6, amended: a sell whose field coerces to a number `n > 0`, at a price
`> 0`, is refused exactly when no holding for the ticker exists or `n`
exceeds the shares held; it then saves nothing, so the stored record is the
one before; otherwise, when the integer `k` that `parseInt` reads in the
field does not exceed `n` (as for a plain decimal numeral), it is saved and
the share count `oldShares - k` computed for the holding is `>= 0`, as is
that of any holding for the ticker in the saved list. -/
theorem sell_rejected_iff (user : User) (t field : String) (n price : ℚ)
    (_hn : 0 < n) (hp : 0 < price) (hnum : toNumber field = Num.fin n) :
    ((sell user t field (some (JSNum.fin price))).response
        = Response.send "Not enough shares to sell." ↔
      (findStock user.stocks t = none ∨
        ∃ old, findStock user.stocks t = some old ∧ old.numShares < n)) ∧
    ((sell user t field (some (JSNum.fin price))).response
        = Response.send "Not enough shares to sell." →
      (sell user t field (some (JSNum.fin price))).saved = none ∧
      (sell user t field (some (JSNum.fin price))).store user = user) ∧
    (∀ k old, parseInt10 field = Num.fin k → k ≤ n →
      findStock user.stocks t = some old → ¬ old.numShares < n →
      ∃ u, (sell user t field (some (JSNum.fin price))).saved = some u ∧
        0 ≤ old.numShares - k ∧
        ∀ h, findStock u.stocks t = some h →
          h.numShares = old.numShares - k ∧ 0 ≤ h.numShares) := by
  have hv : truthyNumber (some (JSNum.fin price)) = some price :=
    truthyNumber_fin (ne_of_gt hp)
  have hcases : (sell user t field (some (JSNum.fin price))).response
        = Response.send "Not enough shares to sell." ↔
      (findStock user.stocks t = none ∨
        ∃ old, findStock user.stocks t = some old ∧ old.numShares < n) := by
    cases hfind : findStock user.stocks t with
    | none => simp [sell, hv, hfind]
    | some old =>
      by_cases hs : old.numShares < n
      · simp [sell, hv, hfind, hnum, Num.lt, hs]
      · cases hint : parseInt10 field <;> simp [sell, hv, hfind, hnum, hint, Num.lt, hs]
  refine ⟨hcases, ?_, ?_⟩
  · intro hr
    rcases hcases.mp hr with hfind | ⟨old, hfind, hs⟩
    · simp [sell, hv, hfind, Outcome.store]
    · simp [sell, hv, hfind, hnum, Num.lt, hs, Outcome.store]
  · intro k old hint hk hfind hs
    have hrem : 0 ≤ old.numShares - k := by
      have h2 : n ≤ old.numShares := not_lt.mp hs
      linarith
    refine ⟨_, by rw [sell_of_shares hv hnum hint hfind hs], hrem, ?_⟩
    intro h hh
    simp only [sellStocks] at hh
    by_cases hz : old.numShares - k = 0
    · simp only [hz, if_true] at hh
      rw [findStock_filter_ne] at hh
      exact absurd hh (by simp)
    · simp only [hz, if_false] at hh
      rw [findStock_updateStock t (sellExisting k price) (fun _ => rfl), hfind] at hh
      have hh2 : sellExisting k price old = h := by simpa using hh
      rw [← hh2]
      exact ⟨rfl, hrem⟩

/-- Selling 3 shares of a ticker that is not held, and 30 of a ticker held
20 times, is refused; selling 5 of the 20 is saved and leaves 15. -/
theorem sell_rejected_iff_witness :
    (sell ⟨"ann", "hash", 0, 3000, [⟨"AAPL", 20, Num.fin 150, 150⟩]⟩ "MSFT" "3"
        (some (JSNum.fin 300))).saved = none ∧
    (sell ⟨"ann", "hash", 0, 3000, [⟨"AAPL", 20, Num.fin 150, 150⟩]⟩ "AAPL" "30"
        (some (JSNum.fin 300))).saved = none ∧
    ∃ u, (sell ⟨"ann", "hash", 0, 3000, [⟨"AAPL", 20, Num.fin 150, 150⟩]⟩ "AAPL" "5"
        (some (JSNum.fin 300))).saved = some u ∧
      (0 : ℚ) ≤ 20 - 5 := by
  have a := sell_rejected_iff ⟨"ann", "hash", 0, 3000, [⟨"AAPL", 20, Num.fin 150, 150⟩]⟩
    "MSFT" "3" 3 300 (by norm_num) (by norm_num)
    (by simpa using @toNumber_digits ['3'] (by simp) (by decide))
  have b := sell_rejected_iff ⟨"ann", "hash", 0, 3000, [⟨"AAPL", 20, Num.fin 150, 150⟩]⟩
    "AAPL" "30" 30 300 (by norm_num) (by norm_num)
    (by simpa using @toNumber_digits ['3', '0'] (by simp) (by decide))
  have c := sell_rejected_iff ⟨"ann", "hash", 0, 3000, [⟨"AAPL", 20, Num.fin 150, 150⟩]⟩
    "AAPL" "5" 5 300 (by norm_num) (by norm_num)
    (by simpa using @toNumber_digits ['5'] (by simp) (by decide))
  refine ⟨(a.2.1 (a.1.mpr (Or.inl (by simp [findStock])))).1,
    (b.2.1 (b.1.mpr
      (Or.inr ⟨⟨"AAPL", 20, Num.fin 150, 150⟩, by simp [findStock], by norm_num⟩))).1, ?_⟩
  obtain ⟨u, h1, h2, _⟩ := c.2.2 5 ⟨"AAPL", 20, Num.fin 150, 150⟩
    (by simpa using @parseInt10_digits ['5'] (by simp) (by decide)) (le_refl _)
    (by simp [findStock]) (by norm_num)
  exact ⟨u, h1, h2⟩

/-- Against C6: the field `50e-1` is the number 5 for the comparison and the
proceeds and 50 for `parseInt`; with 10 shares held and a price of 200 the
sell is not refused and is saved with a share count of -40. -/
theorem sell_exponent_field_negative :
    toNumber "50e-1" = Num.fin 5 ∧ parseInt10 "50e-1" = Num.fin 50 ∧
    (sell ⟨"ann", "hash", 10000, 11000, [⟨"AAPL", 10, Num.fin 100, 100⟩]⟩ "AAPL" "50e-1"
        (some (JSNum.fin 200))).saved
      = some ⟨"ann", "hash", 11000, 3000, [⟨"AAPL", -40, Num.fin 100, 200⟩]⟩ ∧
    ¬ ((0 : ℚ) ≤ -40) := by
  have hnum : toNumber "50e-1" = Num.fin 5 := by
    simp [toNumber, trimWhiteSpace, isStrWhiteSpace, nonDecimalLiteral, strDecimalLiteral,
      exponentFull, digitsToNat, digitVal, scale10]
    norm_num
  have hint : parseInt10 "50e-1" = Num.fin 50 := by
    simp [parseInt10, isStrWhiteSpace, digitsToNat, digitVal]
  refine ⟨hnum, hint, ?_, by norm_num⟩
  rw [@sell_of_shares _ "AAPL" "50e-1" 5 50 200 _ ⟨"AAPL", 10, Num.fin 100, 100⟩
    (truthyNumber_fin (by norm_num)) hnum hint (by simp [findStock]) (by norm_num)]
  simp [sellStocks, updateStock, sellExisting, holdingsValue]
  norm_num

/-! ## Invariants of the saved record -/

theorem refreshStock_name (quote : String → Option JSNum) (stock : Stock) :
    (refreshStock quote stock).name = stock.name := by
  unfold refreshStock
  cases truthyNumber (quote stock.name) <;> rfl

theorem tickers_refresh (quote : String → Option JSNum) (stocks : List Stock) :
    tickers (stocks.map (refreshStock quote)) = tickers stocks := by
  simp [tickers, List.map_map, Function.comp_def, refreshStock_name]

/-- C7: the record saved by a settled buy, by a settled sell and by the
refresh of `/main` (which always saves, with the refreshed prices) has
`totalBalance = cashBalance + Σ curPrice * numShares`, the sum taken over the
holdings list that is saved. -/
theorem total_balance_invariant (user : User) (t field : String) (v : Option JSNum)
    (quote : String → Option JSNum) :
    (∀ u, (buy user t field v).saved = some u →
      u.totalBalance
        = u.cashBalance + (u.stocks.map (fun s => s.curPrice * s.numShares)).sum) ∧
    (∀ u, (sell user t field v).saved = some u →
      u.totalBalance
        = u.cashBalance + (u.stocks.map (fun s => s.curPrice * s.numShares)).sum) ∧
    (∃ u, (mainPage user quote).saved = some u ∧
      u.stocks = user.stocks.map (refreshStock quote) ∧
      u.cashBalance = user.cashBalance ∧
      u.totalBalance
        = u.cashBalance + (u.stocks.map (fun s => s.curPrice * s.numShares)).sum) := by
  refine ⟨?_, ?_, ?_⟩
  · intro u hu
    obtain ⟨price, n, k, stocks, _, _, _, _, _, rfl⟩ := buy_saved hu
    simp only [holdingsValue_eq_sum]
  · intro u hu
    obtain ⟨price, n, k, old, _, _, _, _, _, rfl⟩ := sell_saved hu
    simp only [holdingsValue_eq_sum]
  · exact ⟨_, rfl, rfl, rfl, by simp only [holdingsValue_eq_sum]⟩

/-- A buy of a new ticker and a sale that removes a holding, each followed
by the balance equation on the record it saves. -/
theorem total_balance_invariant_witness :
    (∃ u, (buy ⟨"ann", "hash", 1000, 4000, [⟨"AAPL", 20, Num.fin 150, 150⟩]⟩ "MSFT" "2"
        (some (JSNum.fin 50))).saved = some u ∧
      u.totalBalance
        = u.cashBalance + (u.stocks.map (fun s => s.curPrice * s.numShares)).sum) ∧
    (∃ u, (sell ⟨"ann", "hash", 1000, 4000, [⟨"AAPL", 20, Num.fin 150, 150⟩]⟩ "AAPL" "20"
        (some (JSNum.fin 50))).saved = some u ∧
      u.totalBalance
        = u.cashBalance + (u.stocks.map (fun s => s.curPrice * s.numShares)).sum) := by
  have hb : ∃ u, (buy ⟨"ann", "hash", 1000, 4000, [⟨"AAPL", 20, Num.fin 150, 150⟩]⟩ "MSFT" "2"
      (some (JSNum.fin 50))).saved = some u :=
    ⟨_, by rw [buy_of_funds (truthyNumber_fin (by norm_num))
      (@toNumber_digits ['2'] (by simp) (by decide))
      (@parseInt10_digits ['2'] (by simp) (by decide))
      (by simp [digitsToNat, digitVal]; norm_num) (buyStocks_new (by simp [findStock]))]⟩
  have hs : ∃ u, (sell ⟨"ann", "hash", 1000, 4000, [⟨"AAPL", 20, Num.fin 150, 150⟩]⟩ "AAPL" "20"
      (some (JSNum.fin 50))).saved = some u :=
    ⟨_, by rw [@sell_of_shares _ "AAPL" "20" _ _ 50 _ ⟨"AAPL", 20, Num.fin 150, 150⟩
      (truthyNumber_fin (by norm_num))
      (@toNumber_digits ['2', '0'] (by simp) (by decide))
      (@parseInt10_digits ['2', '0'] (by simp) (by decide))
      (by simp [findStock]) (by simp [digitsToNat, digitVal])]⟩
  obtain ⟨u, hu⟩ := hb
  obtain ⟨w, hw⟩ := hs
  exact ⟨⟨u, hu, (total_balance_invariant _ _ _ _ (fun _ => none)).1 u hu⟩,
    ⟨w, hw, (total_balance_invariant _ _ _ _ (fun _ => none)).2.1 w hw⟩⟩

/-- C8: if no two holdings share a ticker, none do in the record saved by a
settled buy, a settled sell or a refresh; a buy of a ticker already held
leaves the number of holdings as it was and a buy of a ticker not held adds
exactly one holding. -/
theorem ticker_uniqueness (user : User) (t field : String) (v : Option JSNum)
    (quote : String → Option JSNum) (hnd : (tickers user.stocks).Nodup) :
    (∀ u, (buy user t field v).saved = some u →
      (tickers u.stocks).Nodup ∧
      (t ∈ tickers user.stocks → u.stocks.length = user.stocks.length) ∧
      (t ∉ tickers user.stocks → u.stocks.length = user.stocks.length + 1)) ∧
    (∀ u, (sell user t field v).saved = some u → (tickers u.stocks).Nodup) ∧
    (∀ u, (mainPage user quote).saved = some u → (tickers u.stocks).Nodup) := by
  refine ⟨?_, ?_, ?_⟩
  · intro u hu
    obtain ⟨price, n, k, stocks, _, _, _, _, hst, rfl⟩ := buy_saved hu
    rcases buyStocks_some hst with ⟨old, hfind, _, rfl⟩ | ⟨hfind, rfl⟩
    · have hmem : t ∈ tickers user.stocks := by
        by_contra hnot
        rw [findStock_eq_none.mpr hnot] at hfind
        exact absurd hfind (by simp)
      refine ⟨?_, fun _ => length_updateStock _ _ _, fun hnot => absurd hmem hnot⟩
      show (tickers (updateStock t (buyExisting n k price) user.stocks)).Nodup
      rw [tickers_updateStock t (buyExisting n k price) (fun _ => rfl)]
      exact hnd
    · have hnot : t ∉ tickers user.stocks := findStock_eq_none.mp hfind
      refine ⟨?_, fun hmem => absurd hmem hnot, fun _ => by simp⟩
      have : tickers (user.stocks ++ [Stock.mk t k (Num.fin price) price])
          = tickers user.stocks ++ [t] := by simp [tickers]
      show (tickers (user.stocks ++ [Stock.mk t k (Num.fin price) price])).Nodup
      rw [this]
      exact List.Nodup.append hnd (List.nodup_singleton t) (by simpa using hnot)
  · intro u hu
    obtain ⟨price, n, k, old, _, _, _, _, _, rfl⟩ := sell_saved hu
    simp only [sellStocks]
    by_cases hz : old.numShares - k = 0
    · simp only [hz, if_true]
      exact hnd.sublist (List.Sublist.map _ (List.filter_sublist _))
    · simp only [hz, if_false]
      rw [tickers_updateStock t (sellExisting k price) (fun _ => rfl)]
      exact hnd
  · intro u hu
    have hs : u.stocks = user.stocks.map (refreshStock quote) := by
      simp only [mainPage, Option.some.injEq] at hu
      rw [← hu]
    rw [hs, tickers_refresh]
    exact hnd

/-- A second purchase of a ticker held keeps one holding; a purchase of
another ticker makes two. -/
theorem ticker_uniqueness_witness :
    (∃ u, (buy ⟨"ann", "hash", 1000, 4000, [⟨"AAPL", 20, Num.fin 150, 150⟩]⟩ "AAPL" "2"
        (some (JSNum.fin 50))).saved = some u ∧
      (tickers u.stocks).Nodup ∧ u.stocks.length = 1) ∧
    (∃ u, (buy ⟨"ann", "hash", 1000, 4000, [⟨"AAPL", 20, Num.fin 150, 150⟩]⟩ "MSFT" "2"
        (some (JSNum.fin 50))).saved = some u ∧
      (tickers u.stocks).Nodup ∧ u.stocks.length = 2) := by
  have hnd : (tickers [(⟨"AAPL", 20, Num.fin 150, 150⟩ : Stock)]).Nodup := by simp [tickers]
  have hb : ∃ u, (buy ⟨"ann", "hash", 1000, 4000, [⟨"AAPL", 20, Num.fin 150, 150⟩]⟩ "AAPL" "2"
      (some (JSNum.fin 50))).saved = some u :=
    ⟨_, by rw [buy_of_funds (truthyNumber_fin (by norm_num))
      (@toNumber_digits ['2'] (by simp) (by decide))
      (@parseInt10_digits ['2'] (by simp) (by decide))
      (by simp [digitsToNat, digitVal]; norm_num)
      (@buyStocks_held _ "AAPL" _ _ 50 ⟨"AAPL", 20, Num.fin 150, 150⟩ (by simp [findStock])
        (by
          rw [buyExisting_buyPrice_fin _ 50 150 ⟨"AAPL", 20, Num.fin 150, 150⟩ rfl
            (by simp [digitsToNat, digitVal]; norm_num)]
          simp))]⟩
  have hc : ∃ u, (buy ⟨"ann", "hash", 1000, 4000, [⟨"AAPL", 20, Num.fin 150, 150⟩]⟩ "MSFT" "2"
      (some (JSNum.fin 50))).saved = some u :=
    ⟨_, by rw [buy_of_funds (truthyNumber_fin (by norm_num))
      (@toNumber_digits ['2'] (by simp) (by decide))
      (@parseInt10_digits ['2'] (by simp) (by decide))
      (by simp [digitsToNat, digitVal]; norm_num) (buyStocks_new (by simp [findStock]))]⟩
  obtain ⟨u, hu⟩ := hb
  obtain ⟨w, hw⟩ := hc
  have h := (ticker_uniqueness ⟨"ann", "hash", 1000, 4000, [⟨"AAPL", 20, Num.fin 150, 150⟩]⟩
    "AAPL" "2" (some (JSNum.fin 50)) (fun _ => none) hnd).1 u hu
  have k := (ticker_uniqueness ⟨"ann", "hash", 1000, 4000, [⟨"AAPL", 20, Num.fin 150, 150⟩]⟩
    "MSFT" "2" (some (JSNum.fin 50)) (fun _ => none) hnd).1 w hw
  exact ⟨⟨u, hu, h.1, h.2.1 (by simp [tickers])⟩, ⟨w, hw, k.1, k.2.2 (by simp [tickers])⟩⟩

/-! ## Quote lookup -/

/-- C9: when the quote lookup returned `null`, a buy and a sell answer
`Error fetching stock price.` and save nothing, so the stored record is the
one before, whatever the ticker and the share count. -/
theorem quote_unavailable_aborts (user : User) (t field : String)
    (provider : String → ProviderOutcome) (hquote : getStockPrice provider t = none) :
    buy user t field (getStockPrice provider t)
      = ⟨Response.send "Error fetching stock price.", none⟩ ∧
    sell user t field (getStockPrice provider t)
      = ⟨Response.send "Error fetching stock price.", none⟩ ∧
    (buy user t field (getStockPrice provider t)).store user = user ∧
    (sell user t field (getStockPrice provider t)).store user = user ∧
    (∀ session findOne, (postBuy session findOne provider t field).saved = none ∧
      (postSell session findOne provider t field).saved = none) := by
  refine ⟨?_, ?_, ?_, ?_, ?_⟩
  · simp [hquote, buy, truthyNumber]
  · simp [hquote, sell, truthyNumber]
  · simp [hquote, buy, truthyNumber, Outcome.store]
  · simp [hquote, sell, truthyNumber, Outcome.store]
  · intro session findOne
    unfold postBuy postSell
    cases currentUser session findOne with
    | none => simp
    | some u => simp [hquote, buy, sell, truthyNumber]

/-- The provider is unreachable: the purchase and the sale of 5 shares are
aborted and the record keeps its 20 shares and its cash. -/
theorem quote_unavailable_aborts_witness :
    buy ⟨"ann", "hash", 1000, 4000, [⟨"AAPL", 20, Num.fin 150, 150⟩]⟩ "AAPL" "5"
        (getStockPrice (fun _ => ProviderOutcome.networkError) "AAPL")
      = ⟨Response.send "Error fetching stock price.", none⟩ ∧
    sell ⟨"ann", "hash", 1000, 4000, [⟨"AAPL", 20, Num.fin 150, 150⟩]⟩ "AAPL" "5"
        (getStockPrice (fun _ => ProviderOutcome.networkError) "AAPL")
      = ⟨Response.send "Error fetching stock price.", none⟩ :=
  ⟨(quote_unavailable_aborts ⟨"ann", "hash", 1000, 4000, [⟨"AAPL", 20, Num.fin 150, 150⟩]⟩
      "AAPL" "5" (fun _ => ProviderOutcome.networkError) rfl).1,
   (quote_unavailable_aborts ⟨"ann", "hash", 1000, 4000, [⟨"AAPL", 20, Num.fin 150, 150⟩]⟩
      "AAPL" "5" (fun _ => ProviderOutcome.networkError) rfl).2.1⟩

/-- Against C10: on a payload whose price field is `-1.5`, `getStockPrice`
returns the number `-3/2`, which is neither `null` nor positive; the test
`!stockPrice` lets it through, and a buy of 2 shares at that quote is settled,
raising the cash balance from 100 to 103. -/
theorem getStockPrice_negative_quote :
    getStockPrice negativeQuote "ACME" = some (JSNum.fin (-3 / 2)) ∧
    truthyNumber (getStockPrice negativeQuote "ACME") = some (-3 / 2) ∧
    ¬ ((0 : ℚ) < -3 / 2) ∧
    (buy ⟨"ann", "hash", 100, 100, []⟩ "ACME" "2" (getStockPrice negativeQuote "ACME")).saved
      = some ⟨"ann", "hash", 103, 100, [⟨"ACME", 2, Num.fin (-3 / 2), -3 / 2⟩]⟩ := by
  have h : getStockPrice negativeQuote "ACME" = some (JSNum.fin (-3 / 2)) := by
    simp [getStockPrice, getStockPriceTry, negativeQuote, axiosGet, parseFloat,
      parseUnsigned, JSNum.neg, isStrWhiteSpace, digitsToNat, digitVal, scale10, exponentPart]
    norm_num
  have hv : truthyNumber (some (JSNum.fin (-3 / 2))) = some (-3 / 2) :=
    truthyNumber_fin (by norm_num)
  have hnum : toNumber "2" = Num.fin 2 := by
    simpa [digitsToNat, digitVal] using @toNumber_digits ['2'] (by simp) (by decide)
  have hint : parseInt10 "2" = Num.fin 2 := by
    simpa [digitsToNat, digitVal] using @parseInt10_digits ['2'] (by simp) (by decide)
  refine ⟨h, by rw [h, hv], by norm_num, ?_⟩
  rw [h, buy_of_funds hv hnum hint (by norm_num) (buyStocks_new (by simp [findStock]))]
  simp only [holdingsValue, List.nil_append, List.foldl_cons, List.foldl_nil]
  norm_num

/-- C10, amended: `getStockPrice` is total; it returns `null` exactly on a
network error, a status outside `200..299`, a payload without
`'Global Quote'` and a price field that is missing or empty, and otherwise
`parseFloat` of the price field, whatever its sign; the value that passes the
test `!stockPrice` of the handlers is a number other than `0`. -/
theorem getStockPrice_total (provider : String → ProviderOutcome) (t : String) :
    (getStockPrice provider t = none ↔
      (provider t = ProviderOutcome.networkError ∨
        ∃ status data, provider t = ProviderOutcome.http status data ∧
          (¬ (200 ≤ status ∧ status < 300) ∨ data.globalQuote = none ∨
            data.globalQuote = some ⟨none⟩ ∨ data.globalQuote = some ⟨some ""⟩))) ∧
    (∀ x, getStockPrice provider t = some x →
      ∃ status price, provider t = ProviderOutcome.http status ⟨some ⟨some price⟩⟩ ∧
        200 ≤ status ∧ status < 300 ∧ price ≠ "" ∧ x = parseFloat price) ∧
    (∀ p, truthyNumber (getStockPrice provider t) = some p → p ≠ 0) := by
  refine ⟨?_, ?_, fun p hp => truthyNumber_ne_zero hp⟩
  · unfold getStockPrice getStockPriceTry axiosGet
    cases hpr : provider t with
    | networkError => simp
    | http status data =>
      obtain ⟨gq⟩ := data
      by_cases hst : 200 ≤ status ∧ status < 300
      · cases gq with
        | none =>
          exact iff_of_true (by simp [hst])
            (Or.inr ⟨status, ⟨none⟩, rfl, Or.inr (Or.inl rfl)⟩)
        | some quote =>
          obtain ⟨pr⟩ := quote
          cases pr with
          | none =>
            exact iff_of_true (by simp [hst])
              (Or.inr ⟨status, ⟨some ⟨none⟩⟩, rfl, Or.inr (Or.inr (Or.inl rfl))⟩)
          | some price =>
            by_cases he : price = ""
            · subst he
              exact iff_of_true (by simp [hst])
                (Or.inr ⟨status, ⟨some ⟨some ""⟩⟩, rfl, Or.inr (Or.inr (Or.inr rfl))⟩)
            · refine iff_of_false (by simp [hst, he]) ?_
              rintro (h | ⟨st, d, h, hd⟩)
              · cases h
              · cases h
                rcases hd with hd | hd | hd | hd
                · exact hd hst
                · simp at hd
                · simp at hd
                · simp at hd
                  exact he hd
      · exact iff_of_true (by simp [hst]) (Or.inr ⟨status, ⟨gq⟩, rfl, Or.inl hst⟩)
  · intro x hx
    unfold getStockPrice getStockPriceTry axiosGet at hx
    cases hpr : provider t with
    | networkError => simp [hpr] at hx
    | http status data =>
      obtain ⟨gq⟩ := data
      by_cases hst : 200 ≤ status ∧ status < 300
      · cases gq with
        | none => simp [hpr, hst] at hx
        | some quote =>
          obtain ⟨pr⟩ := quote
          cases pr with
          | none => simp [hpr, hst] at hx
          | some price =>
            by_cases he : price = ""
            · simp [hpr, hst, he] at hx
            · simp [hpr, hst, he] at hx
              exact ⟨status, price, rfl, hst.1, hst.2, he, hx.symm⟩
      · simp [hpr, hst] at hx

end Investio
